import Mathlib

/-!
Shallow embedding of the `markdown-bold-lint` diagnostic scan
(`src/extension.ts`).  Lines of a document are modelled as `List Char`,
a document as `List (List Char)`.  Each definition is translated from the
corresponding source function; source names are kept where Lean allows.
-/

namespace MarkdownBoldLint

/-- `DIAGNOSTIC_CODES` from the source: `MBL001`, `MBL002`, `MBL005`. -/
inductive DiagnosticCode where
  | TRAILING_SYMBOL
  | UNDERSCORE_CJK
  | CONTROL_CHAR
deriving DecidableEq, Repr

/-- `vscode.DiagnosticSeverity`. -/
inductive DiagnosticSeverity where
  | Error
  | Warning
  | Information
  | Hint
deriving DecidableEq, Repr

/-- `vscode.Position`: zero-based line and character column. -/
structure Position where
  line : Nat
  character : Nat
deriving DecidableEq, Repr

/-- `vscode.Range`; the source field `end` is called `endPos` here because
`end` is a reserved word in Lean. -/
structure Range where
  start : Position
  endPos : Position
deriving DecidableEq, Repr

/-- A published `vscode.Diagnostic` with the fields the extension sets. -/
structure Diagnostic where
  range : Range
  message : String
  severity : DiagnosticSeverity
  source : String
  code : DiagnosticCode
deriving DecidableEq, Repr

/-- `vscode.DecorationOptions` as used for the control-character render
hints (only the range and the `after.contentText` label matter). -/
structure DecorationOptions where
  range : Range
  contentText : String
deriving DecidableEq, Repr

/-- `LintOptions` from the source. -/
structure LintOptions where
  showBoldUnderline : Bool
deriving DecidableEq, Repr

/-- `DiagnosticIssue` from the source. -/
structure DiagnosticIssue where
  message : String
  severity : DiagnosticSeverity
  code : DiagnosticCode
  highlightExtra : Nat
deriving DecidableEq, Repr

/-- `DIAGNOSTIC_SOURCE` from the source. -/
def DIAGNOSTIC_SOURCE : String := "markdown-bold-lint"

/-- The character class of `CJK_REGEX = /[가-힣一-龯ぁ-ゟ゠-ヿ]/`:
code points U+AC00–U+D7A3, U+4E00–U+9FAF, U+3041–U+309F, U+30A0–U+30FF. -/
def isCjkChar (c : Char) : Bool :=
  (0xAC00 ≤ c.toNat && c.toNat ≤ 0xD7A3) ||
  (0x4E00 ≤ c.toNat && c.toNat ≤ 0x9FAF) ||
  (0x3041 ≤ c.toNat && c.toNat ≤ 0x309F) ||
  (0x30A0 ≤ c.toNat && c.toNat ≤ 0x30FF)

/-- `after !== "" && CJK_REGEX.test(after)` where `after` is
`lineText[afterIndex] ?? ""` — i.e. the optional character following the
span is present and is CJK. -/
def isAfterCjk (after : Option Char) : Bool :=
  match after with
  | none => false
  | some c => isCjkChar c

/-- The character class of `PROBLEMATIC_TRAILING_SYMBOL_REGEX`, one
disjunct per enumerated character of the class. -/
def isProblematicTrailingSymbol (c : Char) : Bool :=
  c = ')' || c = '"' || c = Char.ofNat 0x27 || c = ']' || c = '}' ||
  c = '）' || c = '］' || c = '｝' || c = '”' || c = '’' ||
  c = '」' || c = '』' || c = '】' || c = '!' || c = '?' ||
  c = ':' || c = ';' || c = '%' || c = '+' || c = '&' ||
  c = '@' || c = '$' || c = '^' || c = '=' || c = '|' ||
  c = '/' || c = '§' || c = '※' || c = '•' || c = '！' ||
  c = '？' || c = '，' || c = '：' || c = '；' || c = '％' ||
  c = ',' || c = '.' || c = '~' || c = '#' || c = '-' ||
  c = '·' || c = '…' || c = '。' || c = '、' || c = '＆' ||
  c = '＠' || c = '／'

/-- `PROBLEMATIC_TRAILING_SYMBOL_REGEX.test(content)`: the regex is the
class anchored by `$`, so it tests the last character of `content` (and
fails on an empty string). -/
def endsWithProblematicSymbolTest (content : List Char) : Bool :=
  match content.getLast? with
  | some c => isProblematicTrailingSymbol c
  | none => false

/-- `detectIssue(delimiter, content, after)` from the source, a pure
decision function on the delimiter, the inner content and the optional
following character. -/
def detectIssue (delimiter : List Char) (content : List Char)
    (after : Option Char) : Option DiagnosticIssue :=
  let isAfterCjkHere := isAfterCjk after
  let endsWithSymbol := endsWithProblematicSymbolTest content
  if delimiter == ['_', '_'] && isAfterCjkHere then
    some {
      code := DiagnosticCode.UNDERSCORE_CJK
      severity := DiagnosticSeverity.Warning
      highlightExtra := 1
      message := "Underscore bold (`__...__`) is immediately followed by CJK text without a space. Some Markdown renderers treat this as intraword and fail to close bold. Consider using `**...**` or inserting a space."
    }
  else if isAfterCjkHere && endsWithSymbol then
    some {
      code := DiagnosticCode.TRAILING_SYMBOL
      severity := DiagnosticSeverity.Warning
      highlightExtra := 1
      message := "Bold text ends with a symbol right before the closing marker and is immediately followed by CJK text without a space. Some Markdown renderers fail to close bold. Consider moving the symbol outside bold, adding a space, or including the particle in bold."
    }
  else
    none

/-- The loop body of `maskInlineCode`, with the mutable loop state
(`inInlineCode`, `tickLength`) made explicit.  On a backtick it consumes
the maximal backtick run (the inner `while` of the source), updates the
span state exactly as the source does, and emits one space per consumed
character; otherwise it emits a space inside a span and the character
itself outside. -/
def maskInlineCodeAux (inInlineCode : Bool) (tickLength : Nat) :
    List Char → List Char
  | [] => []
  | c :: rest =>
    if c = '`' then
      let runLength := (rest.takeWhile (fun d => d = '`')).length + 1
      let afterRun := rest.dropWhile (fun d => d = '`')
      if !inInlineCode then
        List.replicate runLength ' ' ++ maskInlineCodeAux true runLength afterRun
      else if runLength = tickLength then
        List.replicate runLength ' ' ++ maskInlineCodeAux false 0 afterRun
      else
        List.replicate runLength ' ' ++ maskInlineCodeAux inInlineCode tickLength afterRun
    else
      (if inInlineCode then ' ' else c) :: maskInlineCodeAux inInlineCode tickLength rest
termination_by l => l.length
decreasing_by
  · simp only [List.length_cons]
    exact Nat.lt_succ_of_le (List.dropWhile_sublist _).length_le
  · simp only [List.length_cons]
    exact Nat.lt_succ_of_le (List.dropWhile_sublist _).length_le
  · simp only [List.length_cons]
    exact Nat.lt_succ_of_le (List.dropWhile_sublist _).length_le
  · simp [Nat.lt_succ_self]

/-- `maskInlineCode(lineText)` from the source. -/
def maskInlineCode (lineText : List Char) : List Char :=
  maskInlineCodeAux false 0 lineText

/-- A line viewed as the spec's §4.2 contract views it: as a sequence of
maximal backtick runs and individual non-backtick characters. -/
inductive CodeTok where
  | run : Nat → CodeTok
  | chr : Char → CodeTok
deriving DecidableEq, Repr

/-- Split a line into maximal backtick runs and single other characters
(structural recursion from the right, merging a leading backtick into the
run that follows it). -/
def tokenizeTicks : List Char → List CodeTok
  | [] => []
  | c :: rest =>
    let ts := tokenizeTicks rest
    if c = '`' then
      match ts with
      | CodeTok.run k :: ts2 => CodeTok.run (k + 1) :: ts2
      | _ => CodeTok.run 1 :: ts
    else
      CodeTok.chr c :: ts

/-- The inline-code masking contract exactly as the spec words it, over
the tokenized line: a backtick run of length `k` opens a span when none is
open (remembering `k` as the required closing length), closes the open
span only when `k` equals the remembered length, and is masked-over
content otherwise; every character of a span, delimiters included, becomes
one space; characters outside spans are kept. -/
def maskTokensSpec : Bool → Nat → List CodeTok → List Char
  | _, _, [] => []
  | inSpan, needed, CodeTok.run k :: ts =>
    if !inSpan then
      List.replicate k ' ' ++ maskTokensSpec true k ts
    else if k = needed then
      List.replicate k ' ' ++ maskTokensSpec false 0 ts
    else
      List.replicate k ' ' ++ maskTokensSpec true needed ts
  | inSpan, needed, CodeTok.chr c :: ts =>
    (if inSpan then ' ' else c) :: maskTokensSpec inSpan needed ts

/-- The spec's description of `maskInlineCode`, assembled from the
tokenized view. -/
def maskInlineCodeSpec (lineText : List Char) : List Char :=
  maskTokensSpec false 0 (tokenizeTicks lineText)

/-- Count of the matches of `/```|~~~/g` on a line: left-to-right,
non-overlapping, three characters consumed per match. -/
def countFenceTokens : List Char → Nat
  | '`' :: '`' :: '`' :: rest => countFenceTokens rest + 1
  | '~' :: '~' :: '~' :: rest => countFenceTokens rest + 1
  | _ :: rest => countFenceTokens rest
  | [] => 0

/-- A match of `BOLD_REGEX = /(\*\*|__)([^\r\n]+?)\1/g`: start index in
the line, the delimiter character (doubled in the text), and the full
match length `2 + content length + 2`. -/
structure BoldMatch where
  index : Nat
  delim : Char
  fullLen : Nat
deriving DecidableEq, Repr

/-- Lazy search for the closing delimiter `dd` after the opening one: the
smallest `k ≥ 1` such that the first `k` characters (the content) are all
distinct from CR and LF and are immediately followed by `d`, `d`.
Returns the content length `k`, or `none` when the bold pattern cannot
close on this line. -/
def findClose (d : Char) : List Char → Option Nat
  | [] => none
  | c :: rest =>
    if c = '\r' || c = '\n' then none
    else if rest.take 2 = [d, d] then some 1
    else (findClose d rest).map (fun k => k + 1)

/-- All matches of `BOLD_REGEX` with the `g` flag starting at absolute
index `i`: at each position try the delimiter alternatives `**` then `__`;
on a successful lazy match consume it entirely (non-overlapping) and
continue after it, otherwise advance one character. -/
def boldMatchesAux (i : Nat) : List Char → List BoldMatch
  | c1 :: c2 :: rest =>
    if (c1 = '*' && c2 = '*') || (c1 = '_' && c2 = '_') then
      match findClose c1 rest with
      | some k =>
        { index := i, delim := c1, fullLen := k + 4 } ::
          boldMatchesAux (i + k + 4) (rest.drop (k + 2))
      | none => boldMatchesAux (i + 1) (c2 :: rest)
    else
      boldMatchesAux (i + 1) (c2 :: rest)
  | _ => []
termination_by l => l.length
decreasing_by
  · simp only [List.length_cons]
    have h1 : (rest.drop (k + 2)).length ≤ rest.length := by
      simp [List.length_drop]
    omega
  · simp [Nat.lt_succ_self]
  · simp [Nat.lt_succ_self]

/-- `maskedLine.matchAll(BOLD_REGEX)` (the regex's `lastIndex` is never
assigned anywhere in the module, so matching always starts at 0). -/
def boldMatches (s : List Char) : List BoldMatch :=
  boldMatchesAux 0 s

/-- The classification part of the per-match loop body in
`collectDiagnostics` (everything after the escape check): content and the
one character after the span are read from the original `lineText`, the
issue is produced by `detectIssue`, and the range end is the clamped
one-character extension when `showBoldUnderline` is set and the match
start otherwise. -/
def classifyBoldMatch (options : LintOptions) (lineNumber : Nat)
    (lineText : List Char) (m : BoldMatch) : Option Diagnostic :=
  let contentStart := m.index + 2
  let contentEnd := m.index + m.fullLen - 2
  let content := (lineText.drop contentStart).take (contentEnd - contentStart)
  let afterIndex := m.index + m.fullLen
  let after := lineText.get? afterIndex
  match detectIssue [m.delim, m.delim] content after with
  | none => none
  | some issue =>
    let highlightEnd := min lineText.length (afterIndex + issue.highlightExtra)
    some {
      range := {
        start := { line := lineNumber, character := m.index }
        endPos := {
          line := lineNumber
          character := if options.showBoldUnderline then highlightEnd else m.index
        }
      }
      message := issue.message
      severity := issue.severity
      source := DIAGNOSTIC_SOURCE
      code := issue.code
    }

/-- The full per-match loop body of `collectDiagnostics`: a match whose
start is preceded (in the original line) by a backslash is discarded,
otherwise it is classified. -/
def processBoldMatch (options : LintOptions) (lineNumber : Nat)
    (lineText : List Char) (m : BoldMatch) : Option Diagnostic :=
  if 0 < m.index ∧ lineText.get? (m.index - 1) = some '\\' then none
  else classifyBoldMatch options lineNumber lineText m

/-- The bold diagnostics of one non-fenced line: matches are located in
the masked copy, then each match is processed against the original line. -/
def boldLineDiags (options : LintOptions) (lineNumber : Nat)
    (lineText : List Char) : List Diagnostic :=
  (boldMatches (maskInlineCode lineText)).filterMap
    (processBoldMatch options lineNumber lineText)

/-- The character class of
`CONTROL_CHAR_REGEX = /[\u0000-\u0008\u000B\u000C\u000E-\u001F]/g`. -/
def isControlChar (c : Char) : Bool :=
  c.toNat ≤ 0x8 || c.toNat = 0xB || c.toNat = 0xC ||
  (0xE ≤ c.toNat && c.toNat ≤ 0x1F)

/-- `codePoint.toString(16).toUpperCase().padStart(4, "0")`. -/
def controlCharHex (codePoint : Nat) : List Char :=
  let digits := (Nat.toDigits 16 codePoint).map Char.toUpper
  List.replicate (4 - digits.length) '0' ++ digits

/-- The diagnostic pushed for one control character occurrence. -/
def controlCharDiagnostic (lineNumber index : Nat) (c : Char) : Diagnostic :=
  { range := {
      start := { line := lineNumber, character := index }
      endPos := { line := lineNumber, character := index + 1 }
    }
    message := "Invisible control character detected (U+" ++
      String.mk (controlCharHex c.toNat) ++
      "). Remove it to avoid rendering or parsing issues."
    severity := DiagnosticSeverity.Warning
    source := DIAGNOSTIC_SOURCE
    code := DiagnosticCode.CONTROL_CHAR }

/-- The render-hint decoration pushed for the same occurrence. -/
def controlCharRenderHint (lineNumber index : Nat) (c : Char) : DecorationOptions :=
  { range := {
      start := { line := lineNumber, character := index }
      endPos := { line := lineNumber, character := index + 1 }
    }
    contentText := "[U+" ++ String.mk (controlCharHex c.toNat) ++ "]" }

/-- The `matchAll(CONTROL_CHAR_REGEX)` loop of
`collectControlCharDiagnostics`, walking the line from character index
`index` but reporting only occurrences at index at least `lastIndex` (the
iterator of `matchAll` starts searching at the regex's `lastIndex`). -/
def collectControlCharFrom (lastIndex lineNumber index : Nat) :
    List Char → List Diagnostic × List DecorationOptions
  | [] => ([], [])
  | c :: rest =>
    let tail := collectControlCharFrom lastIndex lineNumber (index + 1) rest
    if lastIndex ≤ index ∧ isControlChar c then
      (controlCharDiagnostic lineNumber index c :: tail.1,
       controlCharRenderHint lineNumber index c :: tail.2)
    else
      tail

/-- `collectControlCharDiagnostics(lineNumber, lineText, ...)` from the
source: it first resets `CONTROL_CHAR_REGEX.lastIndex` to 0, then scans
the whole raw line. -/
def collectControlCharDiagnostics (lineNumber : Nat) (lineText : List Char) :
    List Diagnostic × List DecorationOptions :=
  collectControlCharFrom 0 lineNumber 0 lineText

/-- One iteration of the line loop of `collectDiagnostics`: control
characters are collected on the raw line unconditionally; a line with an
odd number of fence tokens toggles the fence state and is skipped for bold
scanning; a line inside a fence is skipped for bold scanning; otherwise
the line's bold diagnostics are appended.  Returns the new fence state and
the diagnostics and decorations of this line. -/
def lineStep (options : LintOptions) (inCodeFence : Bool) (lineNumber : Nat)
    (lineText : List Char) : Bool × List Diagnostic × List DecorationOptions :=
  let ctrl := collectControlCharDiagnostics lineNumber lineText
  if countFenceTokens lineText % 2 = 1 then
    (!inCodeFence, ctrl.1, ctrl.2)
  else if inCodeFence then
    (inCodeFence, ctrl.1, ctrl.2)
  else
    (inCodeFence, ctrl.1 ++ boldLineDiags options lineNumber lineText, ctrl.2)

/-- The line loop of `collectDiagnostics`, threading the fence state and
the line number. -/
def collectDiagnosticsAux (options : LintOptions) (inCodeFence : Bool)
    (lineNumber : Nat) :
    List (List Char) → List Diagnostic × List DecorationOptions
  | [] => ([], [])
  | line :: rest =>
    let step := lineStep options inCodeFence lineNumber line
    let tail := collectDiagnosticsAux options step.1 (lineNumber + 1) rest
    (step.2.1 ++ tail.1, step.2.2 ++ tail.2)

/-- `collectDiagnostics(document, options)` from the source: the fence
state starts as `false` and lines are numbered from 0. -/
def collectDiagnostics (lines : List (List Char)) (options : LintOptions) :
    List Diagnostic × List DecorationOptions :=
  collectDiagnosticsAux options false 0 lines

/-- The only mutable module state that the scan touches:
`CONTROL_CHAR_REGEX.lastIndex` (`BOLD_REGEX.lastIndex` is never assigned
and `matchAll` does not mutate its receiver, so it stays 0 forever). -/
structure ScanState where
  controlCharLastIndex : Nat
deriving DecidableEq, Repr

set_option linter.unusedVariables false in
/-- `collectControlCharDiagnostics` with the regex state made explicit:
the source assigns `CONTROL_CHAR_REGEX.lastIndex = 0` before iterating,
and `matchAll` leaves the receiver's `lastIndex` unchanged (so the
incoming state is deliberately unused). -/
def collectControlCharDiagnosticsS (st : ScanState) (lineNumber : Nat)
    (lineText : List Char) :
    (List Diagnostic × List DecorationOptions) × ScanState :=
  let lastIndex := 0
  ((collectControlCharFrom lastIndex lineNumber 0 lineText),
   { controlCharLastIndex := lastIndex })

/-- `lineStep` threading the explicit regex state. -/
def lineStepS (options : LintOptions) (st : ScanState) (inCodeFence : Bool)
    (lineNumber : Nat) (lineText : List Char) :
    (Bool × List Diagnostic × List DecorationOptions) × ScanState :=
  let ctrl := collectControlCharDiagnosticsS st lineNumber lineText
  if countFenceTokens lineText % 2 = 1 then
    ((!inCodeFence, ctrl.1.1, ctrl.1.2), ctrl.2)
  else if inCodeFence then
    ((inCodeFence, ctrl.1.1, ctrl.1.2), ctrl.2)
  else
    ((inCodeFence, ctrl.1.1 ++ boldLineDiags options lineNumber lineText, ctrl.1.2),
     ctrl.2)

/-- The line loop of `collectDiagnostics` threading the explicit regex
state. -/
def collectDiagnosticsAuxS (options : LintOptions) (st : ScanState)
    (inCodeFence : Bool) (lineNumber : Nat) :
    List (List Char) → (List Diagnostic × List DecorationOptions) × ScanState
  | [] => (([], []), st)
  | line :: rest =>
    let step := lineStepS options st inCodeFence lineNumber line
    let tail := collectDiagnosticsAuxS options step.2 step.1.1 (lineNumber + 1) rest
    ((step.1.2.1 ++ tail.1.1, step.1.2.2 ++ tail.1.2), tail.2)

/-- One full scan of a document with the module's mutable regex state
threaded through. -/
def collectDiagnosticsS (lines : List (List Char)) (options : LintOptions)
    (st : ScanState) :
    (List Diagnostic × List DecorationOptions) × ScanState :=
  collectDiagnosticsAuxS options st false 0 lines

/-- The trailing-symbol set exactly as the spec enumerates it in §6. -/
def problematicTrailingSymbols : List Char :=
  [')', '"', Char.ofNat 0x27, ']', '}', '）', '］', '｝', '”', '’',
   '」', '』', '】', '!', '?', ':', ';', '%', '+', '&',
   '@', '$', '^', '=', '|', '/', '§', '※', '•', '！',
   '？', '，', '：', '；', '％', ',', '.', '~', '#', '-',
   '·', '…', '。', '、', '＆', '＠', '／']

/-- Value of an uppercase hexadecimal digit (`0`–`9`, `A`–`F`), `none`
for every other character. -/
def hexDigitValueUpper (c : Char) : Option Nat :=
  if '0' ≤ c ∧ c ≤ '9' then some (c.toNat - 48)
  else if 'A' ≤ c ∧ c ≤ 'F' then some (c.toNat - 55)
  else none

/-- Decode a string of uppercase hexadecimal digits; `none` as soon as a
character is not an uppercase hexadecimal digit. -/
def decodeHexUpper (l : List Char) : Option Nat :=
  l.foldl
    (fun acc c =>
      match acc, hexDigitValueUpper c with
      | some a, some d => some (16 * a + d)
      | _, _ => none)
    (some 0)

/-- Collapse the range of a bold-issue diagnostic to a zero-width range
at its start; leave control-character diagnostics untouched. -/
def collapseBoldRange (d : Diagnostic) : Diagnostic :=
  if d.code = DiagnosticCode.CONTROL_CHAR then d
  else { d with range := { start := d.range.start, endPos := d.range.start } }

/-- A range is well formed for a document: it stays on one line, runs
forward, and its end column is within that line. -/
def rangeWF (lines : List (List Char)) (r : Range) : Prop :=
  r.start.line = r.endPos.line ∧
  r.start.character ≤ r.endPos.character ∧
  ∃ l, lines.get? r.start.line = some l ∧ r.endPos.character ≤ l.length

/-! ## Theorems -/

lemma isProblematicTrailingSymbol_iff_mem (c : Char) :
    isProblematicTrailingSymbol c = true ↔ c ∈ problematicTrailingSymbols := by
  simp only [isProblematicTrailingSymbol, problematicTrailingSymbols,
    List.mem_cons, List.not_mem_nil, or_false, Bool.or_eq_true,
    decide_eq_true_eq]
  simp [or_assoc]

/-- C1: `detectIssue` evaluates its rules in order with the first match
winning: an underscore delimiter followed by a CJK character yields
UNDERSCORE_CJK regardless of the trailing symbol; otherwise a CJK
follower together with a problematic trailing symbol yields
TRAILING_SYMBOL; in every other case no issue.  In particular a span with
no following character never triggers, and an asterisk span whose content
does not end in a problematic symbol never triggers. -/
theorem detectIssue_rule_order (delimiter content : List Char) (after : Option Char) :
    ((detectIssue delimiter content after).map DiagnosticIssue.code =
      (if delimiter == ['_', '_'] && isAfterCjk after then
        some DiagnosticCode.UNDERSCORE_CJK
      else if isAfterCjk after && endsWithProblematicSymbolTest content then
        some DiagnosticCode.TRAILING_SYMBOL
      else none)) ∧
    (after = none → detectIssue delimiter content after = none) ∧
    (delimiter = ['*', '*'] → endsWithProblematicSymbolTest content = false →
      detectIssue delimiter content after = none) := by
  refine ⟨?_, ?_, ?_⟩
  · cases h1 : (delimiter == ['_', '_'] && isAfterCjk after) <;>
      cases h2 : (isAfterCjk after && endsWithProblematicSymbolTest content) <;>
      simp [detectIssue, h1, h2]
  · intro h
    subst h
    simp [detectIssue, isAfterCjk]
  · intro hd he
    subst hd
    simp [detectIssue, he]

/-- Witness for C1: `**Hello**` with nothing after never triggers, and an
asterisk bold with a safe (letter) last character does not trigger even
directly before Hangul. -/
theorem detectIssue_rule_order_witness :
    detectIssue ['*', '*'] ['H', 'i'] none = none ∧
    detectIssue ['*', '*'] ['H', 'i'] (some '가') = none :=
  ⟨(detectIssue_rule_order ['*', '*'] ['H', 'i'] none).2.1 rfl,
   (detectIssue_rule_order ['*', '*'] ['H', 'i'] (some '가')).2.2 rfl (by decide)⟩

/-- C2 counterexample: U+9FFF belongs to the CJK unified ideographs block
(U+4E00–U+9FFF), but `CJK_REGEX` ranges only up to U+9FAF (`龯`), so the
classifier does not treat it as CJK — refuting the claim that every
character of the full block counts. -/
theorem isAfterCjk_u9fff_counterexample :
    isAfterCjk (some (Char.ofNat 0x9FFF)) = false := by decide

/-- C2 amended: `isAfterCjk` holds exactly when the following character
exists and lies in U+AC00–U+D7A3 (Hangul syllables), U+4E00–U+9FAF (CJK
unified ideographs up to `龯`, not the whole block), U+3041–U+309F
(Hiragana) or U+30A0–U+30FF (Katakana); in particular no space and no
ASCII or fullwidth punctuation counts, and an absent character never
counts. -/
theorem isAfterCjk_ranges (after : Option Char) :
    (isAfterCjk after = true ↔ ∃ c, after = some c ∧
      ((0xAC00 ≤ c.toNat ∧ c.toNat ≤ 0xD7A3) ∨
       (0x4E00 ≤ c.toNat ∧ c.toNat ≤ 0x9FAF) ∨
       (0x3041 ≤ c.toNat ∧ c.toNat ≤ 0x309F) ∨
       (0x30A0 ≤ c.toNat ∧ c.toNat ≤ 0x30FF))) ∧
    isAfterCjk (some ' ') = false ∧
    isAfterCjk (some '.') = false ∧
    isAfterCjk (some '！') = false ∧
    isAfterCjk none = false := by
  refine ⟨?_, by decide, by decide, by decide, rfl⟩
  cases after with
  | none => simp [isAfterCjk]
  | some c =>
    simp only [isAfterCjk, isCjkChar, Bool.or_eq_true, Bool.and_eq_true,
      decide_eq_true_eq, Option.some.injEq]
    constructor
    · intro h
      exact ⟨c, rfl, by tauto⟩
    · rintro ⟨d, rfl, h⟩
      tauto

/-- C7: the classifier's trailing-symbol predicate holds exactly when the
content is non-empty and its last character belongs to the enumerated
trailing-symbol set, and the TRAILING_SYMBOL rule can only fire when the
content's last character belongs to that set. -/
theorem endsWithProblematicSymbol_set :
    (∀ content : List Char,
      endsWithProblematicSymbolTest content = true ↔
        ∃ c, content.getLast? = some c ∧ c ∈ problematicTrailingSymbols) ∧
    (∀ (delimiter content : List Char) (after : Option Char),
      (detectIssue delimiter content after).map DiagnosticIssue.code =
          some DiagnosticCode.TRAILING_SYMBOL →
        ∃ c, content.getLast? = some c ∧ c ∈ problematicTrailingSymbols) := by
  have hmain : ∀ content : List Char,
      endsWithProblematicSymbolTest content = true ↔
        ∃ c, content.getLast? = some c ∧ c ∈ problematicTrailingSymbols := by
    intro content
    unfold endsWithProblematicSymbolTest
    cases h : content.getLast? with
    | none => simp
    | some c => simp [isProblematicTrailingSymbol_iff_mem]
  refine ⟨hmain, ?_⟩
  intro delimiter content after h
  cases h1 : (delimiter == ['_', '_'] && isAfterCjk after) <;>
    cases h2 : (isAfterCjk after && endsWithProblematicSymbolTest content) <;>
      simp [detectIssue, h1, h2] at h
  rw [Bool.and_eq_true] at h2
  exact (hmain content).mp h2.2

/-- Witness for C7: `**Hello!**가` — the content ends in `!`, which the
theorem places in the enumerated set. -/
theorem endsWithProblematicSymbol_set_witness :
    ∃ c, ['H', 'e', 'l', 'l', 'o', '!'].getLast? = some c ∧
      c ∈ problematicTrailingSymbols :=
  endsWithProblematicSymbol_set.2 ['*', '*'] ['H', 'e', 'l', 'l', 'o', '!']
    (some '가') (by decide)

lemma tokenizeTicks_cons_other (c : Char) (hc : ¬c = '`') (rest : List Char) :
    tokenizeTicks (c :: rest) = CodeTok.chr c :: tokenizeTicks rest := by
  simp [tokenizeTicks, hc]

lemma tokenizeTicks_cons_tick (rest : List Char) :
    tokenizeTicks ('`' :: rest) =
      CodeTok.run ((rest.takeWhile (fun d => d = '`')).length + 1) ::
        tokenizeTicks (rest.dropWhile (fun d => d = '`')) := by
  induction rest with
  | nil => simp [tokenizeTicks]
  | cons c r ih =>
    by_cases hc : c = '`'
    · subst hc
      conv_lhs => rw [tokenizeTicks]
      rw [ih]
      simp [List.takeWhile_cons, List.dropWhile_cons]
    · conv_lhs => rw [tokenizeTicks]
      rw [tokenizeTicks_cons_other c hc]
      simp [List.takeWhile_cons, List.dropWhile_cons, hc, tokenizeTicks_cons_other c hc]

lemma maskInlineCodeAux_nil (b : Bool) (n : Nat) :
    maskInlineCodeAux b n [] = [] := by
  simp [maskInlineCodeAux]

lemma maskInlineCodeAux_cons_tick (b : Bool) (n : Nat) (rest : List Char) :
    maskInlineCodeAux b n ('`' :: rest) =
      (if !b then
        List.replicate ((rest.takeWhile (fun d => d = '`')).length + 1) ' ' ++
          maskInlineCodeAux true ((rest.takeWhile (fun d => d = '`')).length + 1)
            (rest.dropWhile (fun d => d = '`'))
      else if (rest.takeWhile (fun d => d = '`')).length + 1 = n then
        List.replicate ((rest.takeWhile (fun d => d = '`')).length + 1) ' ' ++
          maskInlineCodeAux false 0 (rest.dropWhile (fun d => d = '`'))
      else
        List.replicate ((rest.takeWhile (fun d => d = '`')).length + 1) ' ' ++
          maskInlineCodeAux b n (rest.dropWhile (fun d => d = '`'))) := by
  rw [maskInlineCodeAux]
  simp

lemma maskInlineCodeAux_cons_other (b : Bool) (n : Nat) (c : Char)
    (hc : ¬c = '`') (rest : List Char) :
    maskInlineCodeAux b n (c :: rest) =
      (if b then ' ' else c) :: maskInlineCodeAux b n rest := by
  rw [maskInlineCodeAux]
  simp [hc]

lemma length_dropWhile_tick_le (rest : List Char) :
    (rest.dropWhile (fun d => d = '`')).length ≤ rest.length :=
  (List.dropWhile_sublist _).length_le

lemma maskInlineCodeAux_eq_spec (b : Bool) (n : Nat) (s : List Char) :
    maskInlineCodeAux b n s = maskTokensSpec b n (tokenizeTicks s) := by
  have H : ∀ (L : Nat) (s : List Char), s.length ≤ L → ∀ (b : Bool) (n : Nat),
      maskInlineCodeAux b n s = maskTokensSpec b n (tokenizeTicks s) := by
    intro L
    induction L with
    | zero =>
      intro s hs b n
      have hnil : s = [] := List.eq_nil_of_length_eq_zero (Nat.le_zero.mp hs)
      subst hnil
      simp [maskInlineCodeAux_nil, tokenizeTicks, maskTokensSpec]
    | succ L ih =>
      intro s hs b n
      match s with
      | [] => simp [maskInlineCodeAux_nil, tokenizeTicks, maskTokensSpec]
      | c :: rest =>
        have hrest : rest.length ≤ L := by
          simpa [Nat.succ_le_succ_iff] using hs
        by_cases hc : c = '`'
        · subst hc
          have hdrop : (rest.dropWhile (fun d => d = '`')).length ≤ L :=
            le_trans (length_dropWhile_tick_le rest) hrest
          rw [maskInlineCodeAux_cons_tick, tokenizeTicks_cons_tick]
          cases b with
          | false =>
            simp only [Bool.not_false, if_true, maskTokensSpec, ih _ hdrop]
          | true =>
            by_cases hn : (rest.takeWhile (fun d => d = '`')).length + 1 = n <;>
              simp only [Bool.not_true, Bool.false_eq_true, if_false, hn,
                if_true, if_false, maskTokensSpec, ih _ hdrop]
        · rw [maskInlineCodeAux_cons_other b n c hc, tokenizeTicks_cons_other c hc]
          simp only [maskTokensSpec, ih _ hrest]
  exact H s.length s le_rfl b n

lemma maskInlineCodeAux_length (b : Bool) (n : Nat) (s : List Char) :
    (maskInlineCodeAux b n s).length = s.length := by
  have hsplit : ∀ rest : List Char,
      (rest.takeWhile (fun d => d = '`')).length +
        (rest.dropWhile (fun d => d = '`')).length = rest.length := by
    intro rest
    conv_rhs => rw [← List.takeWhile_append_dropWhile (p := fun d => d = '`') (l := rest)]
    rw [List.length_append]
  have H : ∀ (L : Nat) (s : List Char), s.length ≤ L → ∀ (b : Bool) (n : Nat),
      (maskInlineCodeAux b n s).length = s.length := by
    intro L
    induction L with
    | zero =>
      intro s hs b n
      have hnil : s = [] := List.eq_nil_of_length_eq_zero (Nat.le_zero.mp hs)
      subst hnil
      simp [maskInlineCodeAux_nil]
    | succ L ih =>
      intro s hs b n
      match s with
      | [] => simp [maskInlineCodeAux_nil]
      | c :: rest =>
        have hrest : rest.length ≤ L := by
          simpa [Nat.succ_le_succ_iff] using hs
        by_cases hc : c = '`'
        · subst hc
          have hdrop : (rest.dropWhile (fun d => d = '`')).length ≤ L :=
            le_trans (length_dropWhile_tick_le rest) hrest
          rw [maskInlineCodeAux_cons_tick]
          have hlen := hsplit rest
          cases b with
          | false =>
            simp only [Bool.not_false, if_true, List.length_append,
              List.length_replicate, ih _ hdrop, List.length_cons]
            omega
          | true =>
            by_cases hn : (rest.takeWhile (fun d => d = '`')).length + 1 = n <;>
              simp only [Bool.not_true, Bool.false_eq_true, if_false, hn, if_true,
                List.length_append, List.length_replicate, ih _ hdrop,
                List.length_cons] <;>
              omega
        · rw [maskInlineCodeAux_cons_other b n c hc]
          simp [ih _ hrest]
  exact H s.length s le_rfl b n

/-- C4: `maskInlineCode` behaves exactly as the spec's inline-code-masker
contract over the run-tokenized line — spans open on any backtick run,
close only on a run of exactly the remembered length, every character of a
span (delimiters included) becomes one space and unterminated spans stay
masked to end of line, all other characters are kept — and the output has
exactly the input's length. -/
theorem maskInlineCode_spec_and_length (lineText : List Char) :
    maskInlineCode lineText = maskInlineCodeSpec lineText ∧
    (maskInlineCode lineText).length = lineText.length :=
  ⟨maskInlineCodeAux_eq_spec false 0 lineText,
   maskInlineCodeAux_length false 0 lineText⟩

/-- C3: per scanned line, an odd fence-token count flips the running fence
state and excludes the line itself from bold scanning (only its
control-character diagnostics are kept, whichever side of the toggle it is
on); an even count (including zero) leaves the state unchanged and the
line is bold-scanned exactly when the pre-line state is not-in-fence. -/
theorem fence_toggle_and_exclusion (options : LintOptions) (inCodeFence : Bool)
    (lineNumber : Nat) (lineText : List Char) :
    (countFenceTokens lineText % 2 = 1 →
      lineStep options inCodeFence lineNumber lineText =
        (!inCodeFence,
         (collectControlCharDiagnostics lineNumber lineText).1,
         (collectControlCharDiagnostics lineNumber lineText).2)) ∧
    (countFenceTokens lineText % 2 = 0 →
      lineStep options inCodeFence lineNumber lineText =
        (inCodeFence,
         (collectControlCharDiagnostics lineNumber lineText).1 ++
           (if inCodeFence then []
            else boldLineDiags options lineNumber lineText),
         (collectControlCharDiagnostics lineNumber lineText).2)) := by
  constructor
  · intro h
    simp [lineStep, h]
  · intro h
    have h1 : ¬countFenceTokens lineText % 2 = 1 := by omega
    cases inCodeFence <;> simp [lineStep, h1]

/-- Witness for C3: the fence-opening line triple-backtick-md toggles the
state and yields no bold diagnostics, and a bold-lintable line seen while
inside a fence yields no bold diagnostics either. -/
theorem fence_toggle_and_exclusion_witness :
    lineStep { showBoldUnderline := true } false 0 ("```md".data) =
      (true, [], []) ∧
    lineStep { showBoldUnderline := true } true 5 ("x**a!**가".data) =
      (true, [], []) := by
  constructor
  · have h := (fence_toggle_and_exclusion { showBoldUnderline := true } false 0
      ("```md".data)).1 (by decide)
    exact h.trans (by decide)
  · have h := (fence_toggle_and_exclusion { showBoldUnderline := true } true 5
      ("x**a!**가".data)).2 (by decide)
    exact h.trans (by decide)

/-- C5: a bold match whose start column is preceded in the original line
by a backslash is discarded entirely (no diagnostic); a match at column 0
is never discarded as escaped; and the per-line bold pipeline locates
matches in the masked copy while the escape check, the inner content and
the one character after the span are all read from the original unmasked
line (`classifyBoldMatch` takes only the original `lineText`). -/
theorem escaped_match_discarded (options : LintOptions) (lineNumber : Nat)
    (lineText : List Char) (m : BoldMatch) :
    (0 < m.index → lineText.get? (m.index - 1) = some '\\' →
      processBoldMatch options lineNumber lineText m = none) ∧
    (m.index = 0 →
      processBoldMatch options lineNumber lineText m =
        classifyBoldMatch options lineNumber lineText m) ∧
    (boldLineDiags options lineNumber lineText =
      (boldMatches (maskInlineCode lineText)).filterMap fun mm =>
        if 0 < mm.index ∧ lineText.get? (mm.index - 1) = some '\\' then none
        else classifyBoldMatch options lineNumber lineText mm) := by
  refine ⟨?_, ?_, ?_⟩
  · intro h1 h2
    unfold processBoldMatch
    rw [if_pos ⟨h1, h2⟩]
  · intro h0
    simp [processBoldMatch, h0]
  · rfl

/-- Witness for C5: in `\**a!**가` the match at column 1 is discarded
because of the backslash at column 0, while the unescaped match of
`**a!**가` starts at column 0 and is classified normally. -/
theorem escaped_match_discarded_witness :
    processBoldMatch { showBoldUnderline := true } 0 ("\\**a!**가".data)
      { index := 1, delim := '*', fullLen := 6 } = none ∧
    processBoldMatch { showBoldUnderline := true } 0 ("**a!**가".data)
      { index := 0, delim := '*', fullLen := 6 } =
      classifyBoldMatch { showBoldUnderline := true } 0 ("**a!**가".data)
        { index := 0, delim := '*', fullLen := 6 } := by
  constructor
  · exact (escaped_match_discarded { showBoldUnderline := true } 0
      ("\\**a!**가".data) { index := 1, delim := '*', fullLen := 6 }).1
      (by decide) (by decide)
  · exact (escaped_match_discarded { showBoldUnderline := true } 0
      ("**a!**가".data) { index := 0, delim := '*', fullLen := 6 }).2.1 rfl

lemma collectControlCharFrom_zero_eq (lineNumber : Nat) (lineText : List Char) :
    ∀ i : Nat,
      collectControlCharFrom 0 lineNumber i lineText =
        (((List.enumFrom i lineText).filter fun p => isControlChar p.2).map
            (fun p => controlCharDiagnostic lineNumber p.1 p.2),
         ((List.enumFrom i lineText).filter fun p => isControlChar p.2).map
            (fun p => controlCharRenderHint lineNumber p.1 p.2)) := by
  induction lineText with
  | nil => intro i; simp [collectControlCharFrom]
  | cons c rest ih =>
    intro i
    by_cases hc : isControlChar c = true <;>
      simp [collectControlCharFrom, ih, hc, List.enumFrom_cons, Nat.zero_le]

/-- C6: the control-character scanner emits, per raw line, exactly one
CONTROL_CHAR diagnostic per occurrence of a character of the banned
control set, in order; each diagnostic covers exactly the one offending
character, has warning severity and a message embedding the code point as
a zero-padded 4-digit uppercase hexadecimal; a render hint with the
inline `[U+XXXX]` label is produced at the same position; tab, line feed
and carriage return never trigger; and the per-line scan keeps these
diagnostics and hints independently of the fence state and of inline-code
masking. -/
theorem control_char_scan (lineNumber : Nat) (lineText : List Char) :
    (collectControlCharDiagnostics lineNumber lineText =
      ((lineText.enum.filter fun p => isControlChar p.2).map
          (fun p => controlCharDiagnostic lineNumber p.1 p.2),
       (lineText.enum.filter fun p => isControlChar p.2).map
          (fun p => controlCharRenderHint lineNumber p.1 p.2))) ∧
    (∀ (i : Nat) (c : Char),
      (controlCharDiagnostic lineNumber i c).range =
        { start := { line := lineNumber, character := i }
          endPos := { line := lineNumber, character := i + 1 } } ∧
      (controlCharDiagnostic lineNumber i c).severity =
        DiagnosticSeverity.Warning ∧
      (controlCharDiagnostic lineNumber i c).code =
        DiagnosticCode.CONTROL_CHAR ∧
      (controlCharDiagnostic lineNumber i c).message =
        "Invisible control character detected (U+" ++
          String.mk (controlCharHex c.toNat) ++
          "). Remove it to avoid rendering or parsing issues." ∧
      (controlCharRenderHint lineNumber i c).range =
        (controlCharDiagnostic lineNumber i c).range ∧
      (controlCharRenderHint lineNumber i c).contentText =
        "[U+" ++ String.mk (controlCharHex c.toNat) ++ "]") ∧
    isControlChar '\t' = false ∧
    isControlChar '\n' = false ∧
    isControlChar '\r' = false ∧
    (∀ cp : Fin 0x20, (controlCharHex cp.val).length = 4 ∧
      decodeHexUpper (controlCharHex cp.val) = some cp.val) ∧
    (∀ (options : LintOptions) (inCodeFence : Bool),
      (lineStep options inCodeFence lineNumber lineText).2.1.take
          (collectControlCharDiagnostics lineNumber lineText).1.length =
        (collectControlCharDiagnostics lineNumber lineText).1 ∧
      (lineStep options inCodeFence lineNumber lineText).2.2 =
        (collectControlCharDiagnostics lineNumber lineText).2) := by
  refine ⟨?_, fun i c => ⟨rfl, rfl, rfl, rfl, rfl, rfl⟩, by decide, by decide,
    by decide, by decide, ?_⟩
  · rw [collectControlCharDiagnostics, collectControlCharFrom_zero_eq]
    rfl
  · intro options inCodeFence
    by_cases h1 : countFenceTokens lineText % 2 = 1
    · simp [lineStep, h1, List.take_length]
    · cases inCodeFence <;>
        simp [lineStep, h1, List.take_length, List.take_left]

lemma detectIssue_code_not_control (d c : List Char) (a : Option Char)
    (i : DiagnosticIssue) (h : detectIssue d c a = some i) :
    ¬i.code = DiagnosticCode.CONTROL_CHAR := by
  revert h
  cases h1 : (d == ['_', '_'] && isAfterCjk a) <;>
    cases h2 : (isAfterCjk a && endsWithProblematicSymbolTest c) <;>
      simp [detectIssue, h1, h2] <;>
        (rintro rfl; simp)

lemma processBoldMatch_false_collapse (lineNumber : Nat) (lineText : List Char)
    (m : BoldMatch) :
    processBoldMatch { showBoldUnderline := false } lineNumber lineText m =
      (processBoldMatch { showBoldUnderline := true } lineNumber lineText m).map
        collapseBoldRange := by
  unfold processBoldMatch classifyBoldMatch
  dsimp only
  split
  · rfl
  · cases hdet : detectIssue [m.delim, m.delim]
        ((lineText.drop (m.index + 2)).take (m.index + m.fullLen - 2 - (m.index + 2)))
        (lineText.get? (m.index + m.fullLen)) with
    | none => rfl
    | some issue =>
      have hcode := detectIssue_code_not_control _ _ _ _ hdet
      simp [collapseBoldRange, hcode]

lemma collectControlCharFrom_map_collapse (L lineNumber i : Nat)
    (lineText : List Char) :
    ((collectControlCharFrom L lineNumber i lineText).1.map collapseBoldRange) =
      (collectControlCharFrom L lineNumber i lineText).1 := by
  induction lineText generalizing i with
  | nil => simp [collectControlCharFrom]
  | cons c rest ih =>
    by_cases hc : L ≤ i ∧ isControlChar c = true <;>
      simp [collectControlCharFrom, hc, ih, collapseBoldRange,
        controlCharDiagnostic]

lemma boldLineDiags_false_collapse (lineNumber : Nat) (lineText : List Char) :
    boldLineDiags { showBoldUnderline := false } lineNumber lineText =
      (boldLineDiags { showBoldUnderline := true } lineNumber lineText).map
        collapseBoldRange := by
  unfold boldLineDiags
  rw [List.map_filterMap]
  have hfg : (processBoldMatch { showBoldUnderline := false } lineNumber lineText) =
      fun mm => (processBoldMatch { showBoldUnderline := true } lineNumber
        lineText mm).map collapseBoldRange :=
    funext fun mm => processBoldMatch_false_collapse lineNumber lineText mm
  rw [hfg]

lemma lineStep_false_collapse (inCodeFence : Bool) (lineNumber : Nat)
    (lineText : List Char) :
    lineStep { showBoldUnderline := false } inCodeFence lineNumber lineText =
      ((lineStep { showBoldUnderline := true } inCodeFence lineNumber lineText).1,
       (lineStep { showBoldUnderline := true } inCodeFence lineNumber
         lineText).2.1.map collapseBoldRange,
       (lineStep { showBoldUnderline := true } inCodeFence lineNumber
         lineText).2.2) := by
  have hctrl := collectControlCharFrom_map_collapse 0 lineNumber 0 lineText
  by_cases h1 : countFenceTokens lineText % 2 = 1
  · simp [lineStep, h1, collectControlCharDiagnostics, hctrl]
  · cases inCodeFence <;>
      simp [lineStep, h1, collectControlCharDiagnostics, hctrl,
        boldLineDiags_false_collapse]

/-- C8: turning the show-bold-underline option off only collapses the
ranges of TRAILING_SYMBOL and UNDERSCORE_CJK diagnostics to zero width at
the span's start column — the diagnostics of a scan with the option off
are exactly the image of the scan with it on under `collapseBoldRange`,
which keeps count, order, codes, messages and severities, leaves
CONTROL_CHAR diagnostics entirely unchanged, and the render hints are
identical. -/
theorem underline_option_frame (lines : List (List Char)) :
    ((collectDiagnostics lines { showBoldUnderline := false }).1 =
      (collectDiagnostics lines { showBoldUnderline := true }).1.map
        collapseBoldRange) ∧
    ((collectDiagnostics lines { showBoldUnderline := false }).2 =
      (collectDiagnostics lines { showBoldUnderline := true }).2) ∧
    (∀ d : Diagnostic,
      (collapseBoldRange d).code = d.code ∧
      (collapseBoldRange d).message = d.message ∧
      (collapseBoldRange d).severity = d.severity ∧
      (collapseBoldRange d).source = d.source ∧
      (collapseBoldRange d).range.start = d.range.start ∧
      (collapseBoldRange d).range.endPos =
        (if d.code = DiagnosticCode.CONTROL_CHAR then d.range.endPos
         else d.range.start)) := by
  have hmain : ∀ (ls : List (List Char)) (f : Bool) (n : Nat),
      (collectDiagnosticsAux { showBoldUnderline := false } f n ls).1 =
        (collectDiagnosticsAux { showBoldUnderline := true } f n ls).1.map
          collapseBoldRange ∧
      (collectDiagnosticsAux { showBoldUnderline := false } f n ls).2 =
        (collectDiagnosticsAux { showBoldUnderline := true } f n ls).2 := by
    intro ls
    induction ls with
    | nil => intro f n; simp [collectDiagnosticsAux]
    | cons line rest ih =>
      intro f n
      have hstep := lineStep_false_collapse f n line
      simp only [collectDiagnosticsAux, hstep, List.map_append]
      constructor
      · rw [(ih _ _).1]
      · rw [(ih _ _).2]
  refine ⟨(hmain lines false 0).1, (hmain lines false 0).2, ?_⟩
  intro d
  by_cases hc : d.code = DiagnosticCode.CONTROL_CHAR <;>
    simp [collapseBoldRange, hc]

lemma findClose_bound (d : Char) :
    ∀ (s : List Char) (k : Nat), findClose d s = some k →
      1 ≤ k ∧ k + 2 ≤ s.length := by
  intro s
  induction s with
  | nil => intro k h; simp [findClose] at h
  | cons c rest ih =>
    intro k h
    rw [findClose] at h
    by_cases hcr : (c = '\r' || c = '\n') = true
    · rw [if_pos hcr] at h
      exact absurd h (by simp)
    · rw [if_neg hcr] at h
      by_cases htake : rest.take 2 = [d, d]
      · rw [if_pos htake] at h
        injection h with h
        subst h
        have hlen : (rest.take 2).length = 2 := by rw [htake]; rfl
        rw [List.length_take] at hlen
        have h2 : 2 ≤ rest.length := min_eq_left_iff.mp hlen
        simp only [List.length_cons]
        omega
      · rw [if_neg htake] at h
        rcases Option.map_eq_some'.mp h with ⟨k2, hk2, rfl⟩
        have := ih k2 hk2
        simp only [List.length_cons]
        omega

lemma boldMatchesAux_bound :
    ∀ (L : Nat) (s : List Char), s.length ≤ L →
      ∀ (i : Nat) (m : BoldMatch), m ∈ boldMatchesAux i s →
        i ≤ m.index ∧ m.index + m.fullLen ≤ i + s.length := by
  intro L
  induction L with
  | zero =>
    intro s hs i m hm
    have hnil : s = [] := List.eq_nil_of_length_eq_zero (Nat.le_zero.mp hs)
    subst hnil
    simp [boldMatchesAux] at hm
  | succ L ih =>
    intro s hs i m hm
    match s with
    | [] => simp [boldMatchesAux] at hm
    | [c] => simp [boldMatchesAux] at hm
    | c1 :: c2 :: rest =>
      rw [boldMatchesAux] at hm
      simp only [List.length_cons] at hs
      by_cases hd : ((c1 = '*' && c2 = '*') || (c1 = '_' && c2 = '_')) = true
      · rw [if_pos hd] at hm
        cases hfc : findClose c1 rest with
        | some k =>
          rw [hfc] at hm
          have hkb := findClose_bound c1 rest k hfc
          rcases List.mem_cons.mp hm with rfl | hm2
          · simp only [List.length_cons]
            omega
          · have hdl : (rest.drop (k + 2)).length ≤ L := by
              rw [List.length_drop]
              omega
            have := ih (rest.drop (k + 2)) hdl (i + k + 4) m hm2
            rw [List.length_drop] at this
            simp only [List.length_cons]
            omega
        | none =>
          rw [hfc] at hm
          have := ih (c2 :: rest) (by simp only [List.length_cons]; omega)
            (i + 1) m hm
          simp only [List.length_cons] at this ⊢
          omega
      · rw [if_neg hd] at hm
        have := ih (c2 :: rest) (by simp only [List.length_cons]; omega)
          (i + 1) m hm
        simp only [List.length_cons] at this ⊢
        omega

lemma boldMatches_bound (s : List Char) (m : BoldMatch)
    (hm : m ∈ boldMatches s) : m.index + m.fullLen ≤ s.length := by
  have := boldMatchesAux_bound s.length s le_rfl 0 m hm
  omega

lemma processBoldMatch_some_wf (options : LintOptions) (n : Nat)
    (l : List Char) (m : BoldMatch) (d : Diagnostic)
    (hlen : m.index + m.fullLen ≤ l.length)
    (hpm : processBoldMatch options n l m = some d) :
    d.range.start.line = n ∧ d.range.endPos.line = n ∧
    d.range.start.character ≤ d.range.endPos.character ∧
    d.range.endPos.character ≤ l.length := by
  revert hpm
  unfold processBoldMatch
  split
  · intro h; exact absurd h (by simp)
  · unfold classifyBoldMatch
    dsimp only
    cases hdet : detectIssue [m.delim, m.delim]
        ((l.drop (m.index + 2)).take (m.index + m.fullLen - 2 - (m.index + 2)))
        (l.get? (m.index + m.fullLen)) with
    | none => intro h; exact absurd h (by simp)
    | some issue =>
      intro h
      injection h with h
      subst h
      cases hopt : options.showBoldUnderline
      · refine ⟨rfl, rfl, ?_, ?_⟩ <;>
          simp only [hopt, Bool.false_eq_true, if_false] <;> omega
      · refine ⟨rfl, rfl, ?_, ?_⟩
        · simp only [hopt, if_true]
          exact le_min (by omega) (by omega)
        · simp only [hopt, if_true]
          exact min_le_left _ _

lemma boldLineDiags_wf (options : LintOptions) (n : Nat) (l : List Char) :
    ∀ d ∈ boldLineDiags options n l,
      d.range.start.line = n ∧ d.range.endPos.line = n ∧
      d.range.start.character ≤ d.range.endPos.character ∧
      d.range.endPos.character ≤ l.length := by
  intro d hd
  unfold boldLineDiags at hd
  rcases List.mem_filterMap.mp hd with ⟨m, hm, hpm⟩
  have hmask : (maskInlineCode l).length = l.length :=
    maskInlineCodeAux_length false 0 l
  have hb : m.index + m.fullLen ≤ l.length := by
    have := boldMatches_bound (maskInlineCode l) m hm
    omega
  exact processBoldMatch_some_wf options n l m d hb hpm

lemma collectControlCharFrom_wf (L n : Nat) :
    ∀ (l : List Char) (i : Nat),
      (∀ d ∈ (collectControlCharFrom L n i l).1,
        d.range.start.line = n ∧ d.range.endPos.line = n ∧
        d.range.start.character ≤ d.range.endPos.character ∧
        d.range.endPos.character ≤ i + l.length) ∧
      (∀ dec ∈ (collectControlCharFrom L n i l).2,
        dec.range.start.line = n ∧ dec.range.endPos.line = n ∧
        dec.range.start.character ≤ dec.range.endPos.character ∧
        dec.range.endPos.character ≤ i + l.length) := by
  intro l
  induction l with
  | nil => intro i; simp [collectControlCharFrom]
  | cons c rest ih =>
    intro i
    constructor
    · intro d hd
      by_cases hc : L ≤ i ∧ isControlChar c = true
      · simp only [collectControlCharFrom, if_pos hc] at hd
        rcases List.mem_cons.mp hd with rfl | hd2
        · refine ⟨rfl, rfl, ?_, ?_⟩ <;>
            (simp only [controlCharDiagnostic, List.length_cons]; omega)
        · have := (ih (i + 1)).1 d hd2
          simp only [List.length_cons]
          omega
      · simp only [collectControlCharFrom, if_neg hc] at hd
        have := (ih (i + 1)).1 d hd
        simp only [List.length_cons]
        omega
    · intro dec hdec
      by_cases hc : L ≤ i ∧ isControlChar c = true
      · simp only [collectControlCharFrom, if_pos hc] at hdec
        rcases List.mem_cons.mp hdec with rfl | hdec2
        · refine ⟨rfl, rfl, ?_, ?_⟩ <;>
            (simp only [controlCharRenderHint, List.length_cons]; omega)
        · have := (ih (i + 1)).2 dec hdec2
          simp only [List.length_cons]
          omega
      · simp only [collectControlCharFrom, if_neg hc] at hdec
        have := (ih (i + 1)).2 dec hdec
        simp only [List.length_cons]
        omega

lemma lineStep_wf (options : LintOptions) (f : Bool) (n : Nat) (l : List Char) :
    (∀ d ∈ (lineStep options f n l).2.1,
      d.range.start.line = n ∧ d.range.endPos.line = n ∧
      d.range.start.character ≤ d.range.endPos.character ∧
      d.range.endPos.character ≤ l.length) ∧
    (∀ dec ∈ (lineStep options f n l).2.2,
      dec.range.start.line = n ∧ dec.range.endPos.line = n ∧
      dec.range.start.character ≤ dec.range.endPos.character ∧
      dec.range.endPos.character ≤ l.length) := by
  have hctrl := collectControlCharFrom_wf 0 n l 0
  have hctrl1 := hctrl.1
  have hctrl2 := hctrl.2
  simp only [Nat.zero_add] at hctrl1 hctrl2
  constructor
  · intro d hd
    unfold lineStep at hd
    by_cases h1 : countFenceTokens l % 2 = 1
    · rw [if_pos h1] at hd
      exact hctrl1 d hd
    · rw [if_neg h1] at hd
      by_cases hf : f = true
      · rw [if_pos hf] at hd
        exact hctrl1 d hd
      · rw [if_neg hf] at hd
        rcases List.mem_append.mp hd with hd2 | hd2
        · exact hctrl1 d hd2
        · exact boldLineDiags_wf options n l d hd2
  · intro dec hdec
    unfold lineStep at hdec
    by_cases h1 : countFenceTokens l % 2 = 1
    · rw [if_pos h1] at hdec
      exact hctrl2 dec hdec
    · rw [if_neg h1] at hdec
      by_cases hf : f = true
      · rw [if_pos hf] at hdec
        exact hctrl2 dec hdec
      · rw [if_neg hf] at hdec
        exact hctrl2 dec hdec

lemma collectDiagnosticsAux_wf (options : LintOptions) :
    ∀ (ls : List (List Char)) (f : Bool) (n : Nat),
      (∀ d ∈ (collectDiagnosticsAux options f n ls).1,
        ∃ j l, ls.get? j = some l ∧
          d.range.start.line = n + j ∧ d.range.endPos.line = n + j ∧
          d.range.start.character ≤ d.range.endPos.character ∧
          d.range.endPos.character ≤ l.length) ∧
      (∀ dec ∈ (collectDiagnosticsAux options f n ls).2,
        ∃ j l, ls.get? j = some l ∧
          dec.range.start.line = n + j ∧ dec.range.endPos.line = n + j ∧
          dec.range.start.character ≤ dec.range.endPos.character ∧
          dec.range.endPos.character ≤ l.length) := by
  intro ls
  induction ls with
  | nil => intro f n; simp [collectDiagnosticsAux]
  | cons line rest ih =>
    intro f n
    constructor
    · intro d hd
      simp only [collectDiagnosticsAux] at hd
      rcases List.mem_append.mp hd with hd2 | hd2
      · have := (lineStep_wf options f n line).1 d hd2
        exact ⟨0, line, rfl, by omega, by omega, this.2.2.1, this.2.2.2⟩
      · rcases ((ih _ (n + 1)).1 d hd2) with ⟨j, l, hget, h1, h2, h3, h4⟩
        exact ⟨j + 1, l, by simpa using hget, by omega, by omega, h3, h4⟩
    · intro dec hdec
      simp only [collectDiagnosticsAux] at hdec
      rcases List.mem_append.mp hdec with hd2 | hd2
      · have := (lineStep_wf options f n line).2 dec hd2
        exact ⟨0, line, rfl, by omega, by omega, this.2.2.1, this.2.2.2⟩
      · rcases ((ih _ (n + 1)).2 dec hd2) with ⟨j, l, hget, h1, h2, h3, h4⟩
        exact ⟨j + 1, l, by simpa using hget, by omega, by omega, h3, h4⟩

/-- C9: for every document and option value, every diagnostic and every
render hint of a scan has a well-formed range contained in its own line:
start line equals end line, start column at most end column, and the end
column clamped within the length of that line. -/
theorem scan_ranges_wf (lines : List (List Char)) (options : LintOptions) :
    (∀ d ∈ (collectDiagnostics lines options).1, rangeWF lines d.range) ∧
    (∀ dec ∈ (collectDiagnostics lines options).2, rangeWF lines dec.range) := by
  have h := collectDiagnosticsAux_wf options lines false 0
  constructor
  · intro d hd
    rcases h.1 d hd with ⟨j, l, hget, h1, h2, h3, h4⟩
    refine ⟨by omega, h3, l, ?_, h4⟩
    rw [h1]
    simpa using hget
  · intro dec hdec
    rcases h.2 dec hdec with ⟨j, l, hget, h1, h2, h3, h4⟩
    refine ⟨by omega, h3, l, ?_, h4⟩
    rw [h1]
    simpa using hget

/-- Witness for C9: the diagnostic for the bell character in a one-line
document has a well-formed range. -/
theorem scan_ranges_wf_witness :
    rangeWF [[Char.ofNat 7]] (controlCharDiagnostic 0 0 (Char.ofNat 7)).range :=
  (scan_ranges_wf [[Char.ofNat 7]] { showBoldUnderline := true }).1
    (controlCharDiagnostic 0 0 (Char.ofNat 7)) (by decide)

lemma lineStepS_eq (options : LintOptions) (st : ScanState) (f : Bool)
    (n : Nat) (l : List Char) :
    lineStepS options st f n l =
      (lineStep options f n l, { controlCharLastIndex := 0 }) := by
  unfold lineStepS lineStep collectControlCharDiagnosticsS
    collectControlCharDiagnostics
  by_cases h1 : countFenceTokens l % 2 = 1
  · simp [h1]
  · cases f <;> simp [h1]

lemma collectDiagnosticsAuxS_fst (options : LintOptions) :
    ∀ (ls : List (List Char)) (st : ScanState) (f : Bool) (n : Nat),
      (collectDiagnosticsAuxS options st f n ls).1 =
        collectDiagnosticsAux options f n ls := by
  intro ls
  induction ls with
  | nil => intro st f n; rfl
  | cons line rest ih =>
    intro st f n
    simp only [collectDiagnosticsAuxS, collectDiagnosticsAux, lineStepS_eq, ih]

/-- C10: the scan result is a deterministic function of the document's
lines and the options alone — with the module's only mutable scan state
(the shared regex's `lastIndex`) made explicit, the stateful scan returns
the pure scan's diagnostics from any starting state, so scanning the same
content twice (threading whatever state the first scan left behind)
yields the identical, order-stable diagnostic sequence. -/
theorem scan_deterministic_idempotent (lines : List (List Char))
    (options : LintOptions) (st : ScanState) :
    (collectDiagnosticsS lines options st).1 =
      collectDiagnostics lines options ∧
    (collectDiagnosticsS lines options
        ((collectDiagnosticsS lines options st).2)).1 =
      (collectDiagnosticsS lines options st).1 := by
  have h1 := collectDiagnosticsAuxS_fst options lines st false 0
  have h2 := collectDiagnosticsAuxS_fst options lines
    ((collectDiagnosticsS lines options st).2) false 0
  exact ⟨h1, h2.trans h1.symm⟩

end MarkdownBoldLint
